import Mathlib

/-!
Verification of the LM4F120 UART driver (`src/primer/src/lm4f120h5qr/uart.rs`)
and the spec-described SysTick elapsed-time computation.

The driver code is embedded shallowly: each hardware access performed by the
Rust source is recorded as an event in a trace, in the order the source
performs it.  Register-map constants (the `registers` module is not part of
the provided sources) are modelled from the spec's register-map description.
-/

namespace KinetisFrdm

/-- The eight UART instances of the chip (`enum UartId` in uart.rs). -/
inductive UartId
  | Uart0
  | Uart1
  | Uart2
  | Uart3
  | Uart4
  | Uart5
  | Uart6
  | Uart7
deriving DecidableEq, Repr

/-- The bit index used in the `RCGCUART` read-modify-write of `Uart::init`
(the `match self.id` arms at uart.rs lines 80-89). -/
def uartIndex : UartId → Nat
  | .Uart0 => 0
  | .Uart1 => 1
  | .Uart2 => 2
  | .Uart3 => 3
  | .Uart4 => 4
  | .Uart5 => 5
  | .Uart6 => 6
  | .Uart7 => 7

/-- The named registers of a `UartRegisters` block that uart.rs touches. -/
inductive UartReg
  | ctl
  | ibrd
  | fbrd
  | lcrh
  | rf
  | data
deriving DecidableEq, Repr

/-- One hardware access performed by the driver, in program order. -/
inductive HwEvent
  | gpioEnableUart (id : UartId)
  | rcgcuartRead (v : Nat)
  | rcgcuartWrite (v : Nat)
  | regRead (r : UartReg) (v : Nat)
  | regWrite (r : UartReg) (v : Nat)
deriving DecidableEq, Repr

/-- Modelled from the spec (register map, §4.1): `UART_FR_TXFF`, the
TX-FIFO-full status bit; the `registers` module is not among the provided
sources.  Bit 5 of the flag register per the chip datasheet. -/
def UART_FR_TXFF : Nat := 0x20

/-- Modelled from the spec (register map, §4.1): `UART_FR_RXFE`, the
RX-FIFO-empty status bit; the `registers` module is not among the provided
sources.  Bit 4 of the flag register per the chip datasheet. -/
def UART_FR_RXFE : Nat := 0x10

/-- Modelled from the spec (register map, §4.1): `UART_LCRH_WLEN_8`, the
8-data-bits / no-parity / 1-stop line-control value written by `init`. -/
def UART_LCRH_WLEN_8 : Nat := 0x60

/-- Modelled from the spec (register map, §4.1): `UART_CTL_RXE`, receive
enable bit of the control register. -/
def UART_CTL_RXE : Nat := 0x200

/-- Modelled from the spec (register map, §4.1): `UART_CTL_TXE`, transmit
enable bit of the control register. -/
def UART_CTL_TXE : Nat := 0x100

/-- Modelled from the spec (register map, §4.1): `UART_CTL_UARTEN`, the
module enable bit of the control register. -/
def UART_CTL_UARTEN : Nat := 0x1

/-- The value `init` stores into `ctl` in its final write
(uart.rs lines 116-117). -/
def ctlEnableValue : Nat := UART_CTL_RXE ||| UART_CTL_TXE ||| UART_CTL_UARTEN

/-- The scaled baud divisor computed at uart.rs line 100:
`let baud_int: u32 = (((66000000 * 8) / self.baud) + 1) / 2;`.
All intermediate values are at most `66000000 * 8 + 1 < 2^32`, so `u32`
arithmetic never wraps and plain `Nat` arithmetic is exact. -/
def baud_int (baud : Nat) : Nat := ((66000000 * 8) / baud + 1) / 2

/-- The trace of hardware accesses performed by `Uart::init`
(uart.rs lines 74-119), line by line: GPIO pin muxing, the `RCGCUART`
read-modify-write, `ctl = 0`, the baud-divisor writes, `lcrh`, the
flag clear, and the final enabling `ctl` store.  `rcgc` is the value the
`RCGCUART` read observes. -/
def init (id : UartId) (baud : Nat) (rcgc : Nat) : List HwEvent :=
  [ .gpioEnableUart id,
    .rcgcuartRead rcgc,
    .rcgcuartWrite (rcgc ||| (1 <<< uartIndex id)),
    .regWrite .ctl 0,
    .regWrite .ibrd (baud_int baud / 64),
    .regWrite .fbrd (baud_int baud % 64),
    .regWrite .lcrh UART_LCRH_WLEN_8,
    .regWrite .rf 0,
    .regWrite .ctl ctlEnableValue ]

/-- The trace of `Uart::new` (uart.rs lines 64-72): it stores the id and
baud and calls `init`, so its hardware trace is exactly that of `init`. -/
def new (id : UartId) (baud : Nat) (rcgc : Nat) : List HwEvent :=
  init id baud rcgc

/-- Is this event a write to the `ctl` register? -/
def isCtlWrite : HwEvent → Bool
  | .regWrite .ctl _ => true
  | _ => false

/-- Is this event the GPIO pin-muxing step (`gpio::enable_uart`)? -/
def isGpioMux : HwEvent → Bool
  | .gpioEnableUart _ => true
  | _ => false

/-- Is this event the clock-gate enable write (`RCGCUART` store)? -/
def isClockGateWrite : HwEvent → Bool
  | .rcgcuartWrite _ => true
  | _ => false

/-- The value written to the `RCGCUART` register by a trace, if any. -/
def rcgcWritten (evs : List HwEvent) : Option Nat :=
  evs.filterMap (fun e => match e with
    | .rcgcuartWrite v => some v
    | _ => none) |>.head?

/-- The value written to the `ibrd` register by a trace, if any. -/
def ibrdWritten (evs : List HwEvent) : Option Nat :=
  evs.filterMap (fun e => match e with
    | .regWrite .ibrd v => some v
    | _ => none) |>.head?

/-- The value written to the `fbrd` register by a trace, if any. -/
def fbrdWritten (evs : List HwEvent) : Option Nat :=
  evs.filterMap (fun e => match e with
    | .regWrite .fbrd v => some v
    | _ => none) |>.head?

/-- The sequence of values written to the data register by a trace. -/
def dataWrites (evs : List HwEvent) : List Nat :=
  evs.filterMap (fun e => match e with
    | .regWrite .data v => some v
    | _ => none)

/-- The trace of `Uart::putc` (uart.rs lines 121-128): re-read the flag
register and spin while `UART_FR_TXFF` is set, then write the byte to the
data register.  `flags` supplies the successive flag-register readings;
`none` means the supply was exhausted with the FIFO still full (the real
loop would keep spinning). -/
def putcEvents : List Nat → Nat → Option (List HwEvent)
  | [], _ => none
  | f :: rest, b =>
      if f &&& UART_FR_TXFF ≠ 0 then
        (putcEvents rest b).map (fun evs => .regRead .rf f :: evs)
      else
        some [.regRead .rf f, .regWrite .data b]

/-- The trace of `write_str` (uart.rs lines 132-137): call `putc` on each
byte of the string in order, with no transformation of the bytes.
`supply` provides one flag-reading list per byte. -/
def writeStrEvents : List (List Nat) → List Nat → Option (List HwEvent)
  | _, [] => some []
  | [], _ :: _ => none
  | flags :: supply, b :: bs => do
      let e ← putcEvents flags b
      let rest ← writeStrEvents supply bs
      pure (e ++ rest)

/-- Modelled from the spec (§4.3): the SysTick counter maximum
`MAX = 0xFFFFFF`; the SysTick driver source is not among the provided
sources. -/
def SYSTICK_MAX : Nat := 0xFFFFFF

/-- Modelled from the spec (§4.3): `get_since(previous)` computes elapsed
ticks of the down-counter as `(previous - current) mod (MAX + 1)`; the
SysTick driver source is not among the provided sources.  Subtraction is
performed modularly by adding `MAX + 1` before subtracting. -/
def get_since (previous current : Nat) : Nat :=
  (previous + (SYSTICK_MAX + 1) - current % (SYSTICK_MAX + 1)) % (SYSTICK_MAX + 1)

/-- Outcome of the non-blocking receive. -/
inductive GetcOutcome
  | wouldBlock
  | byte (b : Nat)
deriving DecidableEq, Repr

/-- Modelled from the spec (§4.4): `getc_try()` checks the RX-FIFO-empty
status bit once; if set it returns "would block" without touching the data
register, otherwise it reads one byte from the data register; the function
body is not among the provided sources.  `rf` is the flag-register value
observed, `dr` the data-register value; the result pairs the outcome with
the trace of register accesses performed. -/
def getc_try (rf dr : Nat) : GetcOutcome × List HwEvent :=
  if rf &&& UART_FR_RXFE ≠ 0 then
    (.wouldBlock, [.regRead .rf rf])
  else
    (.byte (dr &&& 0xFF), [.regRead .rf rf, .regRead .data dr])

/-- Rust `u32` division panics on a zero divisor; `checked_div` makes the
panic branch explicit. -/
def checked_div (a b : Nat) : Option Nat :=
  if b = 0 then none else some (a / b)

/-- The scaled baud divisor of uart.rs line 100 with the division-by-zero
branch explicit: `none` exactly when the division panics. -/
def baud_int_checked (baud : Nat) : Option Nat :=
  (checked_div (66000000 * 8) baud).map (fun q => (q + 1) / 2)

/-- Is this event a read of the flag register? -/
def isFlagRead : HwEvent → Bool
  | .regRead .rf _ => true
  | _ => false

/-- Is this event a write to the data register? -/
def isDataWrite : HwEvent → Bool
  | .regWrite .data _ => true
  | _ => false

theorem putcEvents_cons_full (f : Nat) (rest : List Nat) (b : Nat)
    (hf : f &&& UART_FR_TXFF ≠ 0) :
    putcEvents (f :: rest) b =
      (putcEvents rest b).map (fun evs => .regRead .rf f :: evs) := by
  simp [putcEvents, hf]

theorem putcEvents_cons_ready (f : Nat) (rest : List Nat) (b : Nat)
    (hf : f &&& UART_FR_TXFF = 0) :
    putcEvents (f :: rest) b =
      some [.regRead .rf f, .regWrite .data b] := by
  simp [putcEvents, hf]

theorem putcEvents_spec (flags : List Nat) (b : Nat) (evs : List HwEvent)
    (h : putcEvents flags b = some evs) :
    ∃ (spin : List Nat) (f : Nat),
      evs = spin.map (fun g => HwEvent.regRead .rf g) ++
        [.regRead .rf f, .regWrite .data b] ∧
      (∀ g ∈ spin, g &&& UART_FR_TXFF ≠ 0) ∧ f &&& UART_FR_TXFF = 0 := by
  induction flags generalizing evs with
  | nil => simp [putcEvents] at h
  | cons f rest ih =>
    by_cases hf : f &&& UART_FR_TXFF = 0
    · rw [putcEvents_cons_ready f rest b hf, Option.some.injEq] at h
      exact ⟨[], f, h.symm ▸ rfl, by simp, hf⟩
    · rw [putcEvents_cons_full f rest b hf, Option.map_eq_some'] at h
      obtain ⟨evs0, hevs0, rfl⟩ := h
      obtain ⟨spin, g, hdec, hspin, hg⟩ := ih evs0 hevs0
      refine ⟨f :: spin, g, ?_, ?_, hg⟩
      · simp [hdec]
      · intro x hx
        rcases List.mem_cons.mp hx with hx | hx
        · exact hx ▸ hf
        · exact hspin x hx

theorem putcEvents_dataWrites (flags : List Nat) (b : Nat) (evs : List HwEvent)
    (h : putcEvents flags b = some evs) : dataWrites evs = [b] := by
  obtain ⟨spin, f, rfl, -, -⟩ := putcEvents_spec flags b evs h
  induction spin with
  | nil => rfl
  | cons g spin ih => simpa [dataWrites] using ih

theorem writeStrEvents_dataWrites (supply : List (List Nat)) (bytes : List Nat)
    (evs : List HwEvent) (h : writeStrEvents supply bytes = some evs) :
    dataWrites evs = bytes := by
  induction bytes generalizing supply evs with
  | nil =>
    simp only [writeStrEvents, Option.some.injEq] at h
    simp [← h, dataWrites]
  | cons b bs ih =>
    match supply with
    | [] => simp [writeStrEvents] at h
    | flags :: supply =>
      simp only [writeStrEvents, Option.bind_eq_bind, Option.bind_eq_some,
        Option.pure_def, Option.some.injEq] at h
      obtain ⟨e, he, rest, hrest, hevs⟩ := h
      subst hevs
      simp only [dataWrites, List.filterMap_append]
      rw [show List.filterMap _ e = dataWrites e from rfl,
          show List.filterMap _ rest = dataWrites rest from rfl,
          putcEvents_dataWrites flags b e he, ih supply rest hrest]
      rfl

/-- C1: for every baud rate b > 0, `Uart::init` computes the scaled baud
divisor as `((66000000 * 8) / b + 1) / 2` in integer arithmetic, writes its
quotient by 64 to `ibrd` and its remainder mod 64 to `fbrd`; for
b = 115200 the resulting (integer, fractional) pair is (35, 52). -/
theorem init_baud_divisor (id : UartId) (b rcgc : Nat) (h : 0 < b) :
    ibrdWritten (init id b rcgc) = some (((66000000 * 8) / b + 1) / 2 / 64) ∧
    fbrdWritten (init id b rcgc) = some (((66000000 * 8) / b + 1) / 2 % 64) ∧
    ((66000000 * 8) / 115200 + 1) / 2 / 64 = 35 ∧
    ((66000000 * 8) / 115200 + 1) / 2 % 64 = 52 :=
  ⟨rfl, rfl, by decide, by decide⟩

theorem init_baud_divisor_witness :
    0 < 115200 ∧
    (ibrdWritten (init .Uart0 115200 0) =
        some (((66000000 * 8) / 115200 + 1) / 2 / 64) ∧
      fbrdWritten (init .Uart0 115200 0) =
        some (((66000000 * 8) / 115200 + 1) / 2 % 64) ∧
      ((66000000 * 8) / 115200 + 1) / 2 / 64 = 35 ∧
      ((66000000 * 8) / 115200 + 1) / 2 % 64 = 52) :=
  ⟨by decide, init_baud_divisor .Uart0 115200 0 (by decide)⟩

/-- C2 counterexample: the `write_str` of uart.rs performs no newline
translation in any configuration — writing "A\n B" (bytes 65, 10, 66) with
the TX FIFO ready transmits exactly 65, 10, 66, never the claimed
65, 13, 10, 66 with an injected carriage return. -/
theorem write_str_no_crlf_translation :
    writeStrEvents [[0], [0], [0]] [65, 10, 66] =
      some [.regRead .rf 0, .regWrite .data 65, .regRead .rf 0,
            .regWrite .data 10, .regRead .rf 0, .regWrite .data 66] ∧
    dataWrites [.regRead .rf 0, .regWrite .data 65, .regRead .rf 0,
            .regWrite .data 10, .regRead .rf 0, .regWrite .data 66] =
      [65, 10, 66] ∧
    ([65, 10, 66] : List Nat) ≠ [65, 13, 10, 66] := by
  refine ⟨rfl, rfl, by decide⟩

/-- C2 amended: `write_str` transmits the bytes of the string unchanged —
there is no newline-translation mode in the code; whenever every `putc`
completes, the sequence of data-register writes equals the byte sequence
of the string (so "A\n B" yields 65, 10, 66). -/
theorem write_str_passthrough (supply : List (List Nat)) (bytes : List Nat)
    (evs : List HwEvent) (h : writeStrEvents supply bytes = some evs) :
    dataWrites evs = bytes :=
  writeStrEvents_dataWrites supply bytes evs h

theorem write_str_passthrough_witness :
    ∃ evs, writeStrEvents [[32, 0], [0], [0]] [65, 10, 66] = some evs ∧
      dataWrites evs = [65, 10, 66] :=
  ⟨_, rfl, write_str_passthrough [[32, 0], [0], [0]] [65, 10, 66] _ rfl⟩

/-- C3 counterexample: in `Uart::init` the GPIO pin-muxing call is the very
first event (index 0) and the clock-gate enable write comes after it
(index 2), so for Uart0 at 115200 baud the clock-gate write does not occur
strictly before the pin muxing — the code performs them in the opposite
order to the claim. -/
theorem clock_gate_not_before_mux :
    (init .Uart0 115200 0).findIdx? isGpioMux = some 0 ∧
    (init .Uart0 115200 0).findIdx? isClockGateWrite = some 2 ∧
    ¬ (2 : Nat) < 0 := by
  refine ⟨rfl, rfl, by decide⟩

/-- C3 amended: during UART construction the GPIO pin-muxing step occurs
strictly before the write that enables the instance's clock-gate bit, for
every UartId: the mux is the first event of the trace and the clock-gate
write is the third. -/
theorem mux_before_clock_gate (id : UartId) (baud rcgc : Nat) :
    (init id baud rcgc).findIdx? isGpioMux = some 0 ∧
    (init id baud rcgc).findIdx? isClockGateWrite = some 2 ∧
    (0 : Nat) < 2 :=
  ⟨rfl, rfl, by decide⟩

/-- C4: `Uart::init` writes `ctl = 0` first, then `ibrd`, `fbrd`, the
8N1 `lcrh` value, the flag clear, and finally a single `ctl` store
enabling RXE, TXE and UARTEN together; the enable store is the last event
of the trace and the only `ctl` writes of the whole trace are the initial
disable and that final store. -/
theorem init_ctl_sequence (id : UartId) (baud rcgc : Nat) :
    (init id baud rcgc).filter isCtlWrite =
      [.regWrite .ctl 0, .regWrite .ctl ctlEnableValue] ∧
    (init id baud rcgc).getLast? = some (.regWrite .ctl ctlEnableValue) ∧
    ∃ pre, pre.filter isCtlWrite = [] ∧
      init id baud rcgc = pre ++
        [.regWrite .ctl 0,
         .regWrite .ibrd (baud_int baud / 64),
         .regWrite .fbrd (baud_int baud % 64),
         .regWrite .lcrh UART_LCRH_WLEN_8,
         .regWrite .rf 0,
         .regWrite .ctl ctlEnableValue] :=
  ⟨rfl, rfl,
    [.gpioEnableUart id, .rcgcuartRead rcgc,
     .rcgcuartWrite (rcgc ||| (1 <<< uartIndex id))], rfl, rfl⟩

/-- C5: the clock-gate step of `Uart::init` is a read-modify-write: for
every prior register value r and every UartId, the value stored back is
`r ||| (1 <<< index id)`; the constructed instance's bit is set and every
other bit of r is preserved bit-for-bit. -/
theorem clock_gate_rmw (id : UartId) (baud r : Nat) :
    rcgcWritten (init id baud r) = some (r ||| (1 <<< uartIndex id)) ∧
    (r ||| (1 <<< uartIndex id)).testBit (uartIndex id) = true ∧
    ∀ k, k ≠ uartIndex id →
      (r ||| (1 <<< uartIndex id)).testBit k = r.testBit k := by
  refine ⟨rfl, ?_, ?_⟩
  · simp [Nat.testBit_or, Nat.shiftLeft_eq, Nat.testBit_two_pow_self]
  · intro k hk
    simp [Nat.testBit_or, Nat.shiftLeft_eq,
      Nat.testBit_two_pow_of_ne (Ne.symm hk)]

theorem clock_gate_rmw_witness :
    rcgcWritten (init .Uart3 115200 5) = some (5 ||| (1 <<< uartIndex .Uart3)) ∧
    ((5 : Nat) ||| (1 <<< uartIndex .Uart3)).testBit (uartIndex .Uart3) = true ∧
    ((5 : Nat) ||| (1 <<< uartIndex .Uart3)).testBit 2 = (5 : Nat).testBit 2 := by
  have h := clock_gate_rmw .Uart3 115200 5
  exact ⟨h.1, h.2.1, h.2.2 2 (by decide)⟩

/-- C6: whenever `putc` completes, its trace decomposes into flag reads that
all observed TX-FIFO-full, then one flag read observing the bit clear,
then exactly one write of the byte to the data register — the data write
is never performed while a read shows the FIFO full. -/
theorem putc_waits_for_fifo (flags : List Nat) (b : Nat) (evs : List HwEvent)
    (h : putcEvents flags b = some evs) :
    (∃ (spin : List Nat) (f : Nat),
      evs = spin.map (fun g => HwEvent.regRead .rf g) ++
        [.regRead .rf f, .regWrite .data b] ∧
      (∀ g ∈ spin, g &&& UART_FR_TXFF ≠ 0) ∧ f &&& UART_FR_TXFF = 0) ∧
    dataWrites evs = [b] :=
  ⟨putcEvents_spec flags b evs h, putcEvents_dataWrites flags b evs h⟩

theorem putc_waits_for_fifo_witness :
    ∃ evs, putcEvents [32, 0] 65 = some evs ∧
      ((∃ (spin : List Nat) (f : Nat),
        evs = spin.map (fun g => HwEvent.regRead .rf g) ++
          [.regRead .rf f, .regWrite .data 65] ∧
        (∀ g ∈ spin, g &&& UART_FR_TXFF ≠ 0) ∧ f &&& UART_FR_TXFF = 0) ∧
      dataWrites evs = [65]) :=
  ⟨_, rfl, putc_waits_for_fifo [32, 0] 65 _ rfl⟩

/-- C7: `get_since` computes `(previous - current) mod (MAX + 1)` with
MAX = 0xFFFFFF: previous = 100 with current = 90 yields 10, previous = 10
with current = MAX - 5 yields 16, and in general if the down-counter
moved e ≤ MAX ticks past `previous` (at most one wrap), `get_since`
recovers exactly e. -/
theorem get_since_wraparound :
    get_since 100 90 = 10 ∧
    get_since 10 (SYSTICK_MAX - 5) = 16 ∧
    ∀ prev e, prev ≤ SYSTICK_MAX → e ≤ SYSTICK_MAX →
      get_since prev ((prev + (SYSTICK_MAX + 1) - e) % (SYSTICK_MAX + 1)) = e := by
  refine ⟨by decide, by decide, ?_⟩
  intro prev e h1 h2
  simp only [get_since, SYSTICK_MAX] at *
  omega

theorem get_since_wraparound_witness :
    get_since 10 ((10 + (SYSTICK_MAX + 1) - 16) % (SYSTICK_MAX + 1)) = 16 :=
  get_since_wraparound.2.2 10 16 (by decide) (by decide)

/-- C8: `getc_try` is non-blocking: it performs exactly one flag-register
read and at most two register accesses in total; when the RX-FIFO-empty
bit is set it returns the would-block outcome without touching the data
register, otherwise it returns one byte read from the data register. -/
theorem getc_try_nonblocking (rf dr : Nat) :
    ((getc_try rf dr).2).length ≤ 2 ∧
    ((getc_try rf dr).2.filter isFlagRead).length = 1 ∧
    (rf &&& UART_FR_RXFE ≠ 0 →
      (getc_try rf dr).1 = .wouldBlock ∧
      (getc_try rf dr).2 = [.regRead .rf rf]) ∧
    (rf &&& UART_FR_RXFE = 0 →
      (getc_try rf dr).1 = .byte (dr &&& 0xFF) ∧
      (getc_try rf dr).2 = [.regRead .rf rf, .regRead .data dr]) := by
  by_cases h : rf &&& UART_FR_RXFE = 0 <;>
    simp [getc_try, h, isFlagRead]

theorem getc_try_nonblocking_witness :
    (getc_try 16 65).1 = GetcOutcome.wouldBlock ∧
    (getc_try 0 65).1 = GetcOutcome.byte 65 := by
  refine ⟨((getc_try_nonblocking 16 65).2.2.1 (by decide)).1, ?_⟩
  have h := ((getc_try_nonblocking 0 65).2.2.2 (by decide)).1
  simpa using h

/-- C9: `Uart::init` divides 66000000 * 8 by the caller-supplied baud rate
with no zero guard: for every baud ≥ 1 the checked division succeeds and
produces the scaled divisor, while baud = 0 reaches the division-by-zero
branch (the `none` outcome). -/
theorem baud_nonzero_precondition :
    (∀ baud, 1 ≤ baud →
      baud_int_checked baud = some (baud_int baud)) ∧
    baud_int_checked 0 = none := by
  constructor
  · intro baud h
    have hb : baud ≠ 0 := Nat.one_le_iff_ne_zero.mp h
    simp [baud_int_checked, checked_div, hb, baud_int]
  · rfl

theorem baud_nonzero_precondition_witness :
    baud_int_checked 115200 = some (baud_int 115200) :=
  baud_nonzero_precondition.1 115200 (by decide)

/-- C10: for every baud ≥ 1 the value `Uart::init` writes to the `fbrd`
register is `baud_int baud % 64`, which is strictly less than 64, so it
always fits the 6-bit hardware field. -/
theorem fbrd_fits_six_bits (id : UartId) (baud rcgc : Nat) (h : 1 ≤ baud) :
    fbrdWritten (init id baud rcgc) = some (baud_int baud % 64) ∧
    baud_int baud % 64 < 64 :=
  ⟨rfl, Nat.mod_lt _ (by decide)⟩

theorem fbrd_fits_six_bits_witness :
    1 ≤ 115200 ∧
    (fbrdWritten (init .Uart1 115200 0) = some (baud_int 115200 % 64) ∧
      baud_int 115200 % 64 < 64) :=
  ⟨by decide, fbrd_fits_six_bits .Uart1 115200 0 (by decide)⟩

end KinetisFrdm
